import Mathlib

/-!
Shallow embedding of the `webspider` package of amal5haji/go-webspider.

The pure link-classification pipeline (`sanitizeURL`, `isFileURL`,
`shouldCrawlURL`, `processLinkFromResponse`, `extractLinks`) is translated
function by function from the Go source.  The concurrent crawl loop of
`SpiderWebsite` is embedded as a small-step transition relation on an
explicit crawl state: each constructor corresponds to one mutex-protected
critical section (or one scheduler-loop action) of the Go code, and the
interleaving of the worker goroutines is the nondeterminism of the
relation.  Go's `net/url` operations are modelled just deeply enough for
the properties at hand: authority/path/query/fragment splitting for
`http`/`https` URLs, `IsAbs`, `String`, and `Query().Get`.

Real time (`ProcessingTime`, delays, timeouts) and the aggregated text
content (`result.Content`, `removeMarkdownLinks`) are not modelled: no
claim under verification refers to them.
-/

namespace Webspider

/-! ### Character and string helpers (Go `strings` / regexp classes) -/

/-- Space class of Go's `strings.TrimSpace` restricted to ASCII:
`\t`, `\n`, `\v`, `\f`, `\r` and the blank. -/
def isGoSpace (c : Char) : Bool :=
  c = ' ' || ('\x09' ≤ c && c ≤ '\x0d')

/-- Space class of the `\s` escape in Go's `regexp`: `[\t\n\f\r ]`. -/
def isRegexSpace (c : Char) : Bool :=
  c = ' ' || c = '\t' || c = '\n' || c = '\x0c' || c = '\r'

/-- Go `strings.TrimSpace` (ASCII part). -/
def trimSpace (s : String) : String :=
  String.mk (((s.data.dropWhile isGoSpace).reverse.dropWhile isGoSpace).reverse)

/-- Go `strings.HasPrefix`. -/
def hasPfx (s pre : String) : Bool :=
  pre.data.isPrefixOf s.data

/-- Go `strings.HasSuffix`. -/
def hasSfx (s suf : String) : Bool :=
  suf.data.isSuffixOf s.data

/-- Go `strings.TrimPrefix`: strips one leading occurrence, if present. -/
def trimPfx (s pre : String) : String :=
  if hasPfx s pre then String.mk (s.data.drop pre.data.length) else s

/-- ASCII lower-casing of one character, as Go `strings.ToLower` acts on
the ASCII range (the hosts and paths in scope are ASCII). -/
def lowerChar (c : Char) : Char :=
  if 'A' ≤ c && c ≤ 'Z' then Char.ofNat (c.toNat + 32) else c

/-- Go `strings.ToLower` (ASCII part). -/
def lowerStr (s : String) : String :=
  String.mk (s.data.map lowerChar)

/-- Substring test on character lists, used for Go `strings.Contains`. -/
def listContains (cs sub : List Char) : Bool :=
  match cs with
  | [] => sub.isEmpty
  | c :: t => sub.isPrefixOf (c :: t) || listContains t sub

/-- Go `strings.Contains`. -/
def containsSub (s sub : String) : Bool :=
  listContains s.data sub.data

/-! ### A shallow model of Go `net/url` -/

/-- The components of a parsed URL that the spider reads:
`Scheme`, `Host`, `Path`, `RawQuery`, `Fragment` of Go's `url.URL`. -/
structure GoURL where
  scheme : String
  host : String
  path : String
  rawQuery : String
  fragment : String
deriving DecidableEq

/-- Splits the part after `scheme://` into authority, path, query and
fragment the way Go's `url.Parse` does for our URLs: the authority ends at
the first `/`, `?` or `#`; the fragment is cut at the first `#`; the query
at the first `?` before the fragment. -/
def parseAfterScheme (scheme : String) (rest : List Char) : GoURL :=
  let auth := rest.takeWhile (fun c => !(c = '/' || c = '?' || c = '#'))
  let tail1 := rest.dropWhile (fun c => !(c = '/' || c = '?' || c = '#'))
  let path := tail1.takeWhile (fun c => !(c = '?' || c = '#'))
  let tail2 := tail1.dropWhile (fun c => !(c = '?' || c = '#'))
  match tail2 with
  | '?' :: t =>
      { scheme := scheme, host := String.mk auth, path := String.mk path,
        rawQuery := String.mk (t.takeWhile (fun c => !(c = '#'))),
        fragment :=
          match t.dropWhile (fun c => !(c = '#')) with
          | _ :: f => String.mk f
          | [] => "" }
  | '#' :: t =>
      { scheme := scheme, host := String.mk auth, path := String.mk path,
        rawQuery := "", fragment := String.mk t }
  | _ =>
      { scheme := scheme, host := String.mk auth, path := String.mk path,
        rawQuery := "", fragment := "" }

/-- Control characters are rejected by Go's `url.Parse`. -/
def isCtlChar (c : Char) : Bool :=
  c.toNat < 32 || c.toNat = 127

/-- Shallow model of Go `url.Parse`.  Failure is modelled by its main
failure mode, a control character in the input; `http` and `https` URLs
are split into components; any other input parses as a relative reference
kept opaque in `path` (no claim inspects the components of such a value). -/
def parseURL (rawURL : String) : Option GoURL :=
  if rawURL.data.any isCtlChar then none
  else if hasPfx rawURL "https://" then
    some (parseAfterScheme "https" (rawURL.data.drop 8))
  else if hasPfx rawURL "http://" then
    some (parseAfterScheme "http" (rawURL.data.drop 7))
  else
    some { scheme := "", host := "", path := rawURL, rawQuery := "", fragment := "" }

/-- Go `url.URL.IsAbs`: the scheme is non-empty. -/
def isAbs (u : GoURL) : Bool :=
  if u.scheme = "" then false else true

/-- Go `url.URL.String` for the URL shapes in scope (no user info, no
opaque part, no escaping): `scheme:`, then `//host` unless both host and
path are empty or everything is empty, then the path (with a `/` inserted
between a non-empty host and a rootless path), then `?query` and
`#fragment` when non-empty. -/
def urlToString (u : GoURL) : String :=
  (if u.scheme = "" then "" else u.scheme ++ ":")
    ++ (if (u.scheme = "" ∧ u.host = "") ∨ (u.host = "" ∧ u.path = "") then ""
        else "//" ++ u.host)
    ++ (if u.path = "" then ""
        else if hasPfx u.path "/" then ""
        else if u.host = "" then "" else "/")
    ++ u.path
    ++ (if u.rawQuery = "" then "" else "?" ++ u.rawQuery)
    ++ (if u.fragment = "" then "" else "#" ++ u.fragment)

/-- Directory-merge of relative paths, as in RFC 3986 section 5.3 (without
dot-segment normalization, which the call site never exercises). -/
def mergePaths (basePath refPath : String) : String :=
  String.mk ((basePath.data.reverse.dropWhile (fun c => !(c = '/'))).reverse
    ++ refPath.data)

/-- Shallow model of Go `url.URL.ResolveReference`.  The only call site,
the relative branch of `processLinkFromResponse`, is proved unreachable
below (`sanitizeURL` emits only absolute URLs), so only the main RFC 3986
cases are reproduced. -/
def resolveReference (base ref : GoURL) : GoURL :=
  if ref.scheme = "" then
    if ref.host = "" then
      if ref.path = "" then
        { base with
            rawQuery := (if ref.rawQuery = "" then base.rawQuery else ref.rawQuery),
            fragment := ref.fragment }
      else if hasPfx ref.path "/" then
        { ref with scheme := base.scheme, host := base.host }
      else
        { ref with
            scheme := base.scheme
            host := base.host
            path := mergePaths base.path ref.path }
    else
      { ref with scheme := base.scheme }
  else ref

/-- Splits a raw query at every `&`, as Go's query parser does. -/
def splitSegs (cs : List Char) : List (List Char) :=
  match cs with
  | [] => [[]]
  | c :: t =>
      let r := splitSegs t
      if c = '&' then [] :: r
      else
        match r with
        | [] => [[c]]
        | h :: t2 => (c :: h) :: t2

/-- The key of one `key=value` query segment. -/
def segKey (seg : List Char) : List Char :=
  seg.takeWhile (fun c => !(c = '='))

/-- The value of one `key=value` query segment (empty when no `=`). -/
def segVal (seg : List Char) : List Char :=
  match seg.dropWhile (fun c => !(c = '=')) with
  | _ :: v => v
  | [] => []

/-- Go `u.Query().Get(key)`: the value of the first segment carrying the
key, the empty string when absent (percent-unescaping is not modelled; the
spider only queries the literal key `download`). -/
def queryGet (rawQuery key : String) : String :=
  match (splitSegs rawQuery.data).filter (fun seg => segKey seg = key.data) with
  | [] => ""
  | seg :: _ => String.mk (segVal seg)

/-! ### The link classifier (`sanitizeURL`, `isFileURL`, `shouldCrawlURL`) -/

/-- Member of the character class `[^\s")'\]}]` of `sanitizeRegex`. -/
def urlBodyChar (c : Char) : Bool :=
  !(isRegexSpace c || c = '"' || c = ')' || c = Char.ofNat 39
    || c = ']' || c = Char.ofNat 125)

/-- Go `sanitizeURL`: the regexp match
`FindString` of `^https?://[^\s")'\]}]+` on the trimmed input — the
scheme prefix followed by the longest non-empty run of body characters,
or the empty string when the anchored pattern does not match. -/
def sanitizeURL (rawURL : String) : String :=
  let s := trimSpace rawURL
  if hasPfx s "https://" then
    let body := (s.data.drop 8).takeWhile urlBodyChar
    if body.isEmpty then "" else String.mk (s.data.take 8 ++ body)
  else if hasPfx s "http://" then
    let body := (s.data.drop 7).takeWhile urlBodyChar
    if body.isEmpty then "" else String.mk (s.data.take 7 ++ body)
  else ""

/-- The fixed extension set of the `fileExtensions` map. -/
def fileExtensions : List String :=
  [".pdf", ".doc", ".docx", ".xls", ".xlsx", ".ppt", ".pptx",
   ".zip", ".rar", ".gz", ".tar", ".svg", ".png", ".jpg", ".jpeg", ".gif"]

/-- Go `isFileURL`: a `download=1` query parameter, a known file extension
at the end of the lower-cased path, a `/resource/` path segment, or an
`item=form` / `item=statute` marker in the lower-cased query. -/
def isFileURL (u : GoURL) : Bool :=
  if queryGet u.rawQuery "download" = "1" then true
  else
    let path := lowerStr u.path
    let query := lowerStr u.rawQuery
    if fileExtensions.any (fun ext => hasSfx path ext) then true
    else if containsSub path "/resource/" then true
    else if containsSub query "item=form" then true
    else if containsSub query "item=statute" then true
    else false

/-- Go `shouldCrawlURL`: exact lower-cased host equality, or — with
`crawlSubDomain` — a dot-suffix relation in either direction after
stripping one leading `www.` from each host. -/
def shouldCrawlURL (targetURL baseURL : GoURL) (crawlSubDomain : Bool) : Bool :=
  let targetHost := lowerStr targetURL.host
  let baseHost := lowerStr baseURL.host
  if targetHost = baseHost then true
  else if crawlSubDomain then
    let targetHostClean := trimPfx targetHost "www."
    let baseHostClean := trimPfx baseHost "www."
    hasSfx targetHostClean ("." ++ baseHostClean)
      || hasSfx baseHostClean ("." ++ targetHostClean)
  else false

/-! ### Link extraction over one fetched page -/

/-- One `{Href, Text}` link record of the fetch response. -/
structure LinkRecord where
  href : String
  text : String
deriving DecidableEq

/-- The `Links` part of a fetch response (`Internal` and `External`). -/
structure CrawlLinks where
  internal : List LinkRecord
  external : List LinkRecord
deriving DecidableEq

/-- The part of `webcrawl.CrawlResult` the spider reads: the cleaned text
content and the link lists. -/
structure CrawlResult where
  content : String
  links : CrawlLinks
deriving DecidableEq

/-- Set insertion on the insertion-ordered list representing a Go
`map[string]bool` used as a set. -/
def insertSet (s : List String) (x : String) : List String :=
  if x ∈ s then s else s ++ [x]

/-- Go `processLinkFromResponse`: drops empty and fragment-only hrefs,
sanitizes, parses, resolves a relative result against the page URL,
scope-checks against the seed URL, strips the fragment and files the clean
URL into the file set or the crawlable set.  The two Go sets are the two
components of `sets`. -/
def processLinkFromResponse (href text baseURL : String) (parsedBaseURL : GoURL)
    (crawlSubDomain : Bool) (sets : List String × List String) :
    List String × List String :=
  if href = "" then sets
  else if hasPfx href "#" then sets
  else
    let sanitizedLink := sanitizeURL href
    if sanitizedLink = "" then sets
    else
      match parseURL sanitizedLink with
      | none => sets
      | some parsed =>
          let step2 : Option GoURL :=
            if isAbs parsed then some parsed
            else
              match parseURL baseURL with
              | none => none
              | some base => some (resolveReference base parsed)
          match step2 with
          | none => sets
          | some resolvedURL =>
              if shouldCrawlURL resolvedURL parsedBaseURL crawlSubDomain then
                let cleaned : GoURL := { resolvedURL with fragment := "" }
                let cleanURL := urlToString cleaned
                if isFileURL cleaned then (sets.1, insertSet sets.2 cleanURL)
                else (insertSet sets.1 cleanURL, sets.2)
              else sets

/-- The per-link loop body of Go `extractLinks`: trim the href, skip it
when empty, otherwise classify it into the accumulated sets. -/
def processOneLink (baseURL : String) (parsedBaseURL : GoURL) (crawlSubDomain : Bool)
    (sets : List String × List String) (link : LinkRecord) :
    List String × List String :=
  let href := trimSpace link.href
  if href = "" then sets
  else processLinkFromResponse href link.text baseURL parsedBaseURL crawlSubDomain sets

/-- The loop of Go `extractLinks` over a link list, from given sets. -/
def processLinks (links : List LinkRecord) (baseURL : String) (parsedBaseURL : GoURL)
    (crawlSubDomain : Bool) (sets : List String × List String) :
    List String × List String :=
  links.foldl (processOneLink baseURL parsedBaseURL crawlSubDomain) sets

/-- Go `extractLinks`: classify the internal links of one fetched page
into the crawlable set and the file set.  The Go function converts the two
hash sets to slices in map-iteration order; the model keeps insertion
order and the crawl relation below admits any permutation. -/
def extractLinks (crawlResult : CrawlResult) (baseURL : String) (parsedBaseURL : GoURL)
    (crawlSubDomain : Bool) : List String × List String :=
  processLinks crawlResult.links.internal baseURL parsedBaseURL crawlSubDomain ([], [])

/-! ### Spider configuration and result -/

/-- Go `SpiderOptions`.  The two durations are int64 nanosecond counts. -/
structure SpiderOptions where
  maxPages : Int
  maxDepth : Int
  crawlSubDomain : Bool
  timeout : Int
  concurrency : Int
  delayBetween : Int
deriving DecidableEq

/-- Go `DefaultSpiderOptions`. -/
def DefaultSpiderOptions : SpiderOptions :=
  { maxPages := 100, maxDepth := 3, crawlSubDomain := true,
    timeout := 30000000000, concurrency := 5, delayBetween := 1000000000 }

/-- The upfront option fixing of `SpiderWebsite`: a `MaxPages` of zero or
less becomes 1; nothing else is touched. -/
def normalizeOptions (options : SpiderOptions) : SpiderOptions :=
  if options.maxPages ≤ 0 then { options with maxPages := 1 } else options

/-- Go `SpiderResult`, without the unmodelled `Content` text aggregate and
`ProcessingTime` wall-clock field.  The Go `FailedPages` map is a list of
URL/reason pairs in insertion order. -/
structure SpiderResult where
  crawledURLs : List String
  detectedFileUrls : List String
  totalPages : Nat
  successfulPages : Nat
  failedPages : List (String × String)
deriving DecidableEq

/-! ### The crawl loop as a small-step transition system -/

/-- Go `urlJob`. -/
structure Job where
  url : String
  depth : Nat
deriving DecidableEq

/-- The external fetch collaborator (`webcrawl.CrawlWebsite`): one page
fetch either fails with a message or yields a fetch result. -/
structure Fetcher where
  fetch : String → Except String CrawlResult

/-- The mutable crawl session of one `SpiderWebsite` call: the buffered
`urlJobs` channel, the set of spawned and not yet finished workers, the
`visitedURLs` set, and the result bookkeeping fields. -/
structure CrawlState where
  queue : List Job
  running : List Job
  visited : List String
  totalPages : Nat
  crawledURLs : List String
  successfulPages : Nat
  failedPages : List (String × String)
  detectedFileUrls : List String
deriving DecidableEq

/-- The state right after the seed job is placed on the channel. -/
def initState (targetURL : String) : CrawlState :=
  { queue := [{ url := targetURL, depth := 0 }], running := [], visited := [],
    totalPages := 0, crawledURLs := [], successfulPages := 0,
    failedPages := [], detectedFileUrls := [] }

/-- The non-blocking send on the `urlJobs` channel of capacity
`MaxPages*2`: the job is dropped when the buffer is full. -/
def enqueueJob (maxPages : Int) (q : List Job) (j : Job) : List Job :=
  if (q.length : Int) < 2 * maxPages then q ++ [j] else q

/-- The per-link enqueue loop at the end of a successful worker. -/
def enqueueAll (maxPages : Int) (q : List Job) (js : List Job) : List Job :=
  js.foldl (enqueueJob maxPages) q

/-- One scheduler or worker action of `SpiderWebsite`.  Each constructor
is one atomic section of the Go code:

* `admitReject` — the scheduler pops a job and drops it, because the page
  limit is reached, the job is too deep, or its URL is already visited
  (the visited check, marking and counter increment are one mutex-guarded
  section in the source, hence one step here);
* `admitAccept` — the scheduler pops a job, marks it visited, increments
  `TotalPages` and spawns a worker for it;
* `workerFail` — a running worker's fetch fails and it records the reason
  under `FailedPages`;
* `workerSuccessLeaf` — a worker at depth `≥ MaxDepth` succeeds: the URL
  and success counter are recorded, links are not extracted;
* `workerSuccessExpand` — a worker at depth `< MaxDepth` succeeds, appends
  the extracted file links and enqueues each extracted crawlable link at
  depth+1, dropping those that do not fit in the channel.  `links` and
  `files` range over the permutations of the extracted sets, matching the
  arbitrary iteration order of the Go maps backing them. -/
inductive Step (options : SpiderOptions) (parsedURL : GoURL) (F : Fetcher) :
    CrawlState → CrawlState → Prop where
  | admitReject (s : CrawlState) (j : Job) (rest : List Job)
      (hq : s.queue = j :: rest)
      (hrej : (s.totalPages : Int) ≥ options.maxPages
        ∨ (j.depth : Int) > options.maxDepth ∨ j.url ∈ s.visited) :
      Step options parsedURL F s { s with queue := rest }
  | admitAccept (s : CrawlState) (j : Job) (rest : List Job)
      (hq : s.queue = j :: rest)
      (hp : (s.totalPages : Int) < options.maxPages)
      (hd : (j.depth : Int) ≤ options.maxDepth)
      (hv : j.url ∉ s.visited) :
      Step options parsedURL F s
        { s with
            queue := rest
            visited := j.url :: s.visited
            totalPages := s.totalPages + 1
            running := j :: s.running }
  | workerFail (s : CrawlState) (j : Job) (msg : String)
      (hj : j ∈ s.running) (hf : F.fetch j.url = Except.error msg) :
      Step options parsedURL F s
        { s with
            running := s.running.erase j
            failedPages := s.failedPages ++ [(j.url, msg)] }
  | workerSuccessLeaf (s : CrawlState) (j : Job) (cr : CrawlResult)
      (hj : j ∈ s.running) (hf : F.fetch j.url = Except.ok cr)
      (hd : (j.depth : Int) ≥ options.maxDepth) :
      Step options parsedURL F s
        { s with
            running := s.running.erase j
            crawledURLs := s.crawledURLs ++ [j.url]
            successfulPages := s.successfulPages + 1 }
  | workerSuccessExpand (s : CrawlState) (j : Job) (cr : CrawlResult)
      (links files : List String)
      (hj : j ∈ s.running) (hf : F.fetch j.url = Except.ok cr)
      (hd : (j.depth : Int) < options.maxDepth)
      (hlinks : links.Perm (extractLinks cr j.url parsedURL options.crawlSubDomain).1)
      (hfiles : files.Perm (extractLinks cr j.url parsedURL options.crawlSubDomain).2) :
      Step options parsedURL F s
        { s with
            running := s.running.erase j
            crawledURLs := s.crawledURLs ++ [j.url]
            successfulPages := s.successfulPages + 1
            detectedFileUrls := s.detectedFileUrls ++ files
            queue := enqueueAll options.maxPages s.queue
              (links.map (fun l => { url := l, depth := j.depth + 1 })) }

/-- The states a crawl can pass through from a given state. -/
abbrev Reachable (options : SpiderOptions) (parsedURL : GoURL) (F : Fetcher) :
    CrawlState → CrawlState → Prop :=
  Relation.ReflTransGen (Step options parsedURL F)

/-- Left fold of `insertSet`: the key list of a Go `map[string]bool` built
by inserting every list element. -/
def dedupKeys (l : List String) : List String :=
  l.foldl insertSet []

/-- The deduplicated file list that the finalization block of
`SpiderWebsite` computes and hands to the logger (`finalFileList`). -/
def finalizeLoggedFiles (s : CrawlState) : List String :=
  dedupKeys s.detectedFileUrls

/-- The result value returned by `SpiderWebsite` after all workers have
joined: every field is taken from the crawl session as is — in
particular `DetectedFileUrls` is the accumulated list, not the
deduplicated copy computed for the log line. -/
def finalizeResult (s : CrawlState) : SpiderResult :=
  { crawledURLs := s.crawledURLs, detectedFileUrls := s.detectedFileUrls,
    totalPages := s.totalPages, successfulPages := s.successfulPages,
    failedPages := s.failedPages }

/-- The upfront part of `SpiderWebsite`: default options when none are
given, the `MaxPages` coercion, then the seed parse — the only point that
can return an error, before any fetch.  On success it yields the effective
options, the parsed seed and the initial crawl state. -/
def spiderWebsiteSetup (targetURL : String) (options : Option SpiderOptions) :
    Except String (SpiderOptions × GoURL × CrawlState) :=
  let opts := normalizeOptions (options.getD DefaultSpiderOptions)
  match parseURL targetURL with
  | none => Except.error "failed to parse target URL"
  | some parsed => Except.ok (opts, parsed, initState targetURL)

/-! ### Prefix and insertion lemmas -/

lemma hasPfx_iff (s pre : String) : hasPfx s pre = true ↔ ∃ t, s.data = pre.data ++ t := by
  unfold hasPfx
  rw [List.isPrefixOf_iff_prefix]
  constructor
  · rintro ⟨t, ht⟩
    exact ⟨t, ht.symm⟩
  · rintro ⟨t, ht⟩
    exact ⟨t, ht.symm⟩

lemma hasPfx_self (s : String) : hasPfx s s = true :=
  (hasPfx_iff s s).2 ⟨[], (List.append_nil _).symm⟩

lemma hasPfx_append (a b p : String) (h : hasPfx a p = true) :
    hasPfx (a ++ b) p = true := by
  rcases (hasPfx_iff a p).1 h with ⟨t, ht⟩
  exact (hasPfx_iff (a ++ b) p).2 ⟨t ++ b.data, by
    show (a.data ++ b.data) = _
    rw [ht, List.append_assoc]⟩

lemma http_pfx_not_https {s : String} (h : hasPfx s "http://" = true) :
    hasPfx s "https://" = false := by
  rcases (hasPfx_iff s "http://").1 h with ⟨t, ht⟩
  by_contra hc
  rw [Bool.not_eq_false] at hc
  rcases (hasPfx_iff s "https://").1 hc with ⟨t2, ht2⟩
  have e : "http://".data ++ t = "https://".data ++ t2 := ht.symm.trans ht2
  have e1 : "http://".data = ['h', 't', 't', 'p', ':', '/', '/'] := rfl
  have e2 : "https://".data = ['h', 't', 't', 'p', 's', ':', '/', '/'] := rfl
  rw [e1, e2] at e
  simp only [List.cons_append, List.cons.injEq] at e
  exact absurd e.2.2.2.2.1 (by decide)

lemma mem_insertSet_iff {s : List String} {x u : String} :
    u ∈ insertSet s x ↔ u ∈ s ∨ u = x := by
  unfold insertSet
  split
  · constructor
    · exact Or.inl
    · rintro (h | rfl) <;> [exact h; assumption]
  · simp

lemma mem_insertSet_self (s : List String) (x : String) : x ∈ insertSet s x :=
  mem_insertSet_iff.2 (Or.inr rfl)

lemma mem_insertSet_of_mem {s : List String} {u : String} (x : String) (h : u ∈ s) :
    u ∈ insertSet s x :=
  mem_insertSet_iff.2 (Or.inl h)

lemma insertSet_of_mem {s : List String} {x : String} (h : x ∈ s) : insertSet s x = s := by
  unfold insertSet
  rw [if_pos h]

lemma insertSet_nodup {s : List String} {x : String} (h : s.Nodup) :
    (insertSet s x).Nodup := by
  unfold insertSet
  split
  · exact h
  · exact ((List.perm_append_singleton x s).nodup_iff).2 (List.nodup_cons.2 ⟨by assumption, h⟩)

/-! ### C7 — the scope-eligibility rule -/

/-- The scope rule in the words of the spec: accept when the lower-cased
hosts agree, or, when `crawlSubDomain` is set, when either host after
stripping one leading `www.` is a dot-suffix of the other. -/
def specScopeEligible (targetHost baseHost : String) (crawlSubDomain : Bool) : Prop :=
  lowerStr targetHost = lowerStr baseHost ∨
    (crawlSubDomain = true ∧
      (hasSfx (trimPfx (lowerStr targetHost) "www.")
          ("." ++ trimPfx (lowerStr baseHost) "www.") = true ∨
       hasSfx (trimPfx (lowerStr baseHost) "www.")
          ("." ++ trimPfx (lowerStr targetHost) "www.") = true))

/-- C7: `shouldCrawlURL` accepts exactly the links the spec's scope rule
accepts: equal hosts case-insensitively, or — with `crawlSubDomain` — a
`www.`-normalized dot-suffix relation in either direction; with the flag
off only exact hosts pass, and with it on `sub.example.com` and
`example.com` accept each other in both directions. -/
theorem c7_scope_rule :
    (∀ (t b : GoURL) (cs : Bool),
        shouldCrawlURL t b cs = true ↔ specScopeEligible t.host b.host cs) ∧
    (∀ t b : GoURL, shouldCrawlURL t b false = true ↔ lowerStr t.host = lowerStr b.host) ∧
    shouldCrawlURL { scheme := "https", host := "sub.example.com", path := "", rawQuery := "", fragment := "" }
      { scheme := "https", host := "example.com", path := "", rawQuery := "", fragment := "" } true = true ∧
    shouldCrawlURL { scheme := "https", host := "example.com", path := "", rawQuery := "", fragment := "" }
      { scheme := "https", host := "sub.example.com", path := "", rawQuery := "", fragment := "" } true = true := by
  have hmain : ∀ (t b : GoURL) (cs : Bool),
      shouldCrawlURL t b cs = true ↔ specScopeEligible t.host b.host cs := by
    intro t b cs
    unfold shouldCrawlURL specScopeEligible
    by_cases h1 : lowerStr t.host = lowerStr b.host
    · simp [h1]
    · cases cs <;> simp [h1, Bool.or_eq_true]
  refine ⟨hmain, ?_, by decide, by decide⟩
  intro t b
  rw [hmain t b false]
  unfold specScopeEligible
  simp

/-! ### C8 — the configuration frame -/

/-- C8: one crawl invocation treats the caller's options as read-only
apart from the documented coercion: `normalizeOptions` keeps every field
except that a `MaxPages ≤ 0` becomes 1, and leaves the whole value
untouched whenever `MaxPages` is positive. -/
theorem c8_options_frame :
    ∀ o : SpiderOptions,
      (normalizeOptions o).maxDepth = o.maxDepth ∧
      (normalizeOptions o).crawlSubDomain = o.crawlSubDomain ∧
      (normalizeOptions o).timeout = o.timeout ∧
      (normalizeOptions o).concurrency = o.concurrency ∧
      (normalizeOptions o).delayBetween = o.delayBetween ∧
      (0 < o.maxPages → normalizeOptions o = o) ∧
      (o.maxPages ≤ 0 → (normalizeOptions o).maxPages = 1) := by
  intro o
  unfold normalizeOptions
  split
  · exact ⟨rfl, rfl, rfl, rfl, rfl, fun h2 => absurd h2 (by omega), fun _ => rfl⟩
  · exact ⟨rfl, rfl, rfl, rfl, rfl, fun _ => rfl, fun h2 => absurd h2 (by assumption)⟩

/-- Witness for C8 at a concrete non-positive `maxPages`. -/
theorem c8_options_frame_witness :
    (normalizeOptions { maxPages := 0, maxDepth := 7, crawlSubDomain := false, timeout := 5, concurrency := 2, delayBetween := 9 }).maxPages = 1 ∧
    (normalizeOptions { maxPages := 0, maxDepth := 7, crawlSubDomain := false, timeout := 5, concurrency := 2, delayBetween := 9 }).maxDepth = 7 :=
  ⟨(c8_options_frame _).2.2.2.2.2.2 (by decide), (c8_options_frame _).1⟩

/-! ### Shape lemmas for the sanitizer, the parser and the classifier -/

lemma sanitizeURL_shape (raw : String) :
    sanitizeURL raw = "" ∨ hasPfx (sanitizeURL raw) "http://" = true ∨
      hasPfx (sanitizeURL raw) "https://" = true := by
  unfold sanitizeURL
  by_cases h1 : hasPfx (trimSpace raw) "https://" = true
  · rcases (hasPfx_iff _ _).1 h1 with ⟨t, ht⟩
    simp only [h1, if_true]
    by_cases h2 : ((trimSpace raw).data.drop 8).takeWhile urlBodyChar = []
    · left
      simp [h2]
    · right; right
      rw [if_neg (by simpa [List.isEmpty_iff] using h2)]
      apply (hasPfx_iff _ _).2
      refine ⟨((trimSpace raw).data.drop 8).takeWhile urlBodyChar, ?_⟩
      show (trimSpace raw).data.take 8 ++ _ = _
      have hlen : ("https://".data).length = 8 := rfl
      rw [ht, ← hlen, List.take_left]
  · rw [if_neg h1]
    by_cases h2 : hasPfx (trimSpace raw) "http://" = true
    · rcases (hasPfx_iff _ _).1 h2 with ⟨t, ht⟩
      simp only [h2, if_true]
      by_cases h3 : ((trimSpace raw).data.drop 7).takeWhile urlBodyChar = []
      · left
        simp [h3]
      · right; left
        rw [if_neg (by simpa [List.isEmpty_iff] using h3)]
        apply (hasPfx_iff _ _).2
        refine ⟨((trimSpace raw).data.drop 7).takeWhile urlBodyChar, ?_⟩
        show (trimSpace raw).data.take 7 ++ _ = _
        have hlen : ("http://".data).length = 7 := rfl
        rw [ht, ← hlen, List.take_left]
    · rw [if_neg h2]
      exact Or.inl rfl

lemma sanitizeURL_empty_of_no_scheme {raw : String}
    (h1 : hasPfx (trimSpace raw) "http://" = false)
    (h2 : hasPfx (trimSpace raw) "https://" = false) : sanitizeURL raw = "" := by
  unfold sanitizeURL
  rw [if_neg (by simp [h2]), if_neg (by simp [h1])]

lemma parseAfterScheme_scheme (sch : String) (rest : List Char) :
    (parseAfterScheme sch rest).scheme = sch := by
  unfold parseAfterScheme
  dsimp only
  split <;> rfl

lemma parseURL_scheme_http {s : String} (h : hasPfx s "http://" = true) {r : GoURL}
    (hp : parseURL s = some r) : r.scheme = "http" := by
  unfold parseURL at hp
  by_cases hc : s.data.any isCtlChar = true
  · rw [if_pos hc] at hp
    exact Option.noConfusion hp
  · rw [if_neg hc, if_neg (by simp [http_pfx_not_https h]), if_pos h] at hp
    cases hp
    exact parseAfterScheme_scheme _ _

lemma parseURL_scheme_https {s : String} (h : hasPfx s "https://" = true) {r : GoURL}
    (hp : parseURL s = some r) : r.scheme = "https" := by
  unfold parseURL at hp
  by_cases hc : s.data.any isCtlChar = true
  · rw [if_pos hc] at hp
    exact Option.noConfusion hp
  · rw [if_neg hc, if_pos h] at hp
    cases hp
    exact parseAfterScheme_scheme _ _

lemma isAbs_of_http_scheme {r : GoURL} (h : r.scheme = "http" ∨ r.scheme = "https") :
    isAbs r = true := by
  unfold isAbs
  rcases h with h | h <;> rw [h] <;> rfl

lemma sanitized_parse_isAbs {href : String} (hne : sanitizeURL href ≠ "") {r : GoURL}
    (hp : parseURL (sanitizeURL href) = some r) : isAbs r = true := by
  rcases sanitizeURL_shape href with h | h | h
  · exact absurd h hne
  · exact isAbs_of_http_scheme (Or.inl (parseURL_scheme_http h hp))
  · exact isAbs_of_http_scheme (Or.inr (parseURL_scheme_https h hp))

lemma urlToString_scheme_pfx (u : GoURL) (h : ¬ u.scheme = "") :
    hasPfx (urlToString u) (u.scheme ++ ":") = true := by
  unfold urlToString
  rw [if_neg h]
  apply hasPfx_append
  apply hasPfx_append
  apply hasPfx_append
  apply hasPfx_append
  apply hasPfx_append
  exact hasPfx_self _

/-- The classification decision `processLinkFromResponse` makes for one
href, separated from the set insertion: `none` when the link is dropped,
otherwise the clean URL with its file flag. -/
def linkCandidate (href baseURL : String) (parsedBaseURL : GoURL)
    (crawlSubDomain : Bool) : Option (String × Bool) :=
  if href = "" then none
  else if hasPfx href "#" then none
  else
    let sanitizedLink := sanitizeURL href
    if sanitizedLink = "" then none
    else
      match parseURL sanitizedLink with
      | none => none
      | some parsed =>
          match (if isAbs parsed then some parsed
                 else
                   match parseURL baseURL with
                   | none => none
                   | some base => some (resolveReference base parsed)) with
          | none => none
          | some resolvedURL =>
              if shouldCrawlURL resolvedURL parsedBaseURL crawlSubDomain then
                let cleaned : GoURL := { resolvedURL with fragment := "" }
                some (urlToString cleaned, isFileURL cleaned)
              else none

lemma processLink_eq_candidate (href text baseURL : String) (pb : GoURL) (csd : Bool)
    (sets : List String × List String) :
    processLinkFromResponse href text baseURL pb csd sets =
      match linkCandidate href baseURL pb csd with
      | none => sets
      | some (u, false) => (insertSet sets.1 u, sets.2)
      | some (u, true) => (sets.1, insertSet sets.2 u) := by
  unfold processLinkFromResponse linkCandidate
  by_cases h1 : href = ""
  · simp [h1]
  · rw [if_neg h1, if_neg h1]
    by_cases h2 : hasPfx href "#" = true
    · simp [h2]
    · rw [if_neg h2, if_neg h2]
      by_cases h3 : sanitizeURL href = ""
      · simp [h3]
      · rw [if_neg h3, if_neg h3]
        cases hp : parseURL (sanitizeURL href) with
        | none => rfl
        | some parsed =>
            dsimp only
            cases hs : (if isAbs parsed then some parsed
                else
                  match parseURL baseURL with
                  | none => none
                  | some base => some (resolveReference base parsed)) with
            | none => rfl
            | some resolvedURL =>
                dsimp only
                by_cases h4 : shouldCrawlURL resolvedURL pb csd = true
                · rw [if_pos h4, if_pos h4]
                  cases hfile : isFileURL { resolvedURL with fragment := "" } <;> simp [hfile]
                · rw [if_neg h4, if_neg h4]

lemma linkCandidate_scheme {href baseURL : String} {pb : GoURL} {csd : Bool}
    {u : String} {bb : Bool}
    (hc : linkCandidate href baseURL pb csd = some (u, bb)) :
    hasPfx u "http:" = true ∨ hasPfx u "https:" = true := by
  unfold linkCandidate at hc
  by_cases h1 : href = ""
  · simp [h1] at hc
  · rw [if_neg h1] at hc
    by_cases h2 : hasPfx href "#" = true
    · simp [h2] at hc
    · rw [if_neg h2] at hc
      by_cases h3 : sanitizeURL href = ""
      · simp [h3] at hc
      · rw [if_neg h3] at hc
        cases hp : parseURL (sanitizeURL href) with
        | none => rw [hp] at hc; exact Option.noConfusion hc
        | some parsed =>
            rw [hp] at hc
            dsimp only at hc
            have habs : isAbs parsed = true := sanitized_parse_isAbs h3 hp
            rw [if_pos habs] at hc
            dsimp only at hc
            by_cases h4 : shouldCrawlURL parsed pb csd = true
            · rw [if_pos h4] at hc
              have hu : u = urlToString { parsed with fragment := "" } := by
                cases hc
                rfl
              have hsch : parsed.scheme = "http" ∨ parsed.scheme = "https" := by
                rcases sanitizeURL_shape href with h | h | h
                · exact absurd h h3
                · exact Or.inl (parseURL_scheme_http h hp)
                · exact Or.inr (parseURL_scheme_https h hp)
              rcases hsch with h5 | h5
              · left
                have := urlToString_scheme_pfx { parsed with fragment := "" } (by simp [h5])
                rw [hu]
                simpa [h5] using this
              · right
                have := urlToString_scheme_pfx { parsed with fragment := "" } (by simp [h5])
                rw [hu]
                simpa [h5] using this
            · rw [if_neg h4] at hc
              exact Option.noConfusion hc

lemma processLink_of_sanitize_empty {href : String} (h : sanitizeURL href = "")
    (text baseURL : String) (pb : GoURL) (csd : Bool) (sets : List String × List String) :
    processLinkFromResponse href text baseURL pb csd sets = sets := by
  rw [processLink_eq_candidate]
  unfold linkCandidate
  by_cases h1 : href = ""
  · simp [h1]
  · rw [if_neg h1]
    by_cases h2 : hasPfx href "#" = true
    · simp [h2]
    · rw [if_neg h2]
      simp [h]

/-! ### C10 — everything emitted is absolute with an http(s) scheme -/

/-- C10: `sanitizeURL` yields the empty string or a string carrying an
`http://` or `https://` prefix; every URL the classifier adds to either
output set therefore carries an `http:` or `https:` scheme (it is the
serialization of an absolute parsed URL); and any href whose trimmed form
lacks both scheme prefixes — every relative path included — is dropped
without touching the sets. -/
theorem c10_absolute_scheme_invariant :
    (∀ raw : String, sanitizeURL raw = "" ∨ hasPfx (sanitizeURL raw) "http://" = true ∨
        hasPfx (sanitizeURL raw) "https://" = true) ∧
    (∀ (href text baseURL : String) (pb : GoURL) (csd : Bool)
        (sets : List String × List String) (u : String),
        (u ∈ (processLinkFromResponse href text baseURL pb csd sets).1 ∨
          u ∈ (processLinkFromResponse href text baseURL pb csd sets).2) →
        (u ∈ sets.1 ∨ u ∈ sets.2) ∨
          (hasPfx u "http:" = true ∨ hasPfx u "https:" = true)) ∧
    (∀ (href text baseURL : String) (pb : GoURL) (csd : Bool)
        (sets : List String × List String),
        hasPfx (trimSpace href) "http://" = false →
        hasPfx (trimSpace href) "https://" = false →
        processLinkFromResponse href text baseURL pb csd sets = sets) := by
  refine ⟨sanitizeURL_shape, ?_, ?_⟩
  · intro href text baseURL pb csd sets u hu
    rw [processLink_eq_candidate] at hu
    cases hc : linkCandidate href baseURL pb csd with
    | none =>
        rw [hc] at hu
        exact Or.inl hu
    | some p =>
        obtain ⟨v, bb⟩ := p
        rw [hc] at hu
        cases bb
        · dsimp only at hu
          rcases hu with hu | hu
          · rcases mem_insertSet_iff.1 hu with h | rfl
            · exact Or.inl (Or.inl h)
            · exact Or.inr (linkCandidate_scheme hc)
          · exact Or.inl (Or.inr hu)
        · dsimp only at hu
          rcases hu with hu | hu
          · exact Or.inl (Or.inl hu)
          · rcases mem_insertSet_iff.1 hu with h | rfl
            · exact Or.inl (Or.inr h)
            · exact Or.inr (linkCandidate_scheme hc)
  · intro href text baseURL pb csd sets h1 h2
    exact processLink_of_sanitize_empty (sanitizeURL_empty_of_no_scheme h1 h2) _ _ _ _ _

/-- Witness for C10: a scheme-less href is dropped and the sets survive
unchanged. -/
theorem c10_witness :
    processLinkFromResponse "doc/page.html" "" "https://a.test/"
        { scheme := "https", host := "a.test", path := "/", rawQuery := "", fragment := "" }
        true (["x"], []) = (["x"], []) :=
  c10_absolute_scheme_invariant.2.2 "doc/page.html" "" "https://a.test/"
    { scheme := "https", host := "a.test", path := "/", rawQuery := "", fragment := "" }
    true (["x"], []) (by decide) (by decide)

/-! ### C2 — sanitization versus relative-URL resolution -/

/-- C2 counterexample: the relative href `/p1` discovered on the page
`https://a.test/` is dropped by `sanitizeURL` (which only matches
absolute `http(s)://` prefixes), so it is never resolved against the base
URL and never classified: both output sets stay empty. -/
theorem c2_relative_href_counterexample :
    processLinkFromResponse "/p1" "" "https://a.test/"
        { scheme := "https", host := "a.test", path := "/", rawQuery := "", fragment := "" }
        true ([], []) = ([], []) ∧
      sanitizeURL "/p1" = "" := by
  exact ⟨by decide, by decide⟩

/-- C2 (amended): the classifier first extracts the longest leading
substring matching `https?://…`; every non-empty sanitized value is
already absolute when parsed, so the resolve-against-base branch of
`processLinkFromResponse` never runs and every link is either dropped or
processed through an absolute parsed URL. -/
theorem c2_sanitize_forces_absolute :
    (∀ raw : String, sanitizeURL raw = "" ∨ hasPfx (sanitizeURL raw) "http://" = true ∨
        hasPfx (sanitizeURL raw) "https://" = true) ∧
    (∀ href : String, sanitizeURL href ≠ "" → ∀ r : GoURL,
        parseURL (sanitizeURL href) = some r → isAbs r = true) ∧
    (∀ (href text baseURL : String) (pb : GoURL) (csd : Bool)
        (sets : List String × List String),
        processLinkFromResponse href text baseURL pb csd sets = sets ∨
          ∃ r : GoURL, parseURL (sanitizeURL href) = some r ∧ isAbs r = true) := by
  refine ⟨sanitizeURL_shape, fun href h r hp => sanitized_parse_isAbs h hp, ?_⟩
  intro href text baseURL pb csd sets
  by_cases h3 : sanitizeURL href = ""
  · exact Or.inl (processLink_of_sanitize_empty h3 _ _ _ _ _)
  · cases hp : parseURL (sanitizeURL href) with
    | none =>
        left
        rw [processLink_eq_candidate]
        unfold linkCandidate
        by_cases h1 : href = ""
        · simp [h1]
        · rw [if_neg h1]
          by_cases h2 : hasPfx href "#" = true
          · simp [h2]
          · rw [if_neg h2]
            simp [h3, hp]
    | some r => exact Or.inr ⟨r, rfl, sanitized_parse_isAbs h3 hp⟩

/-- Witness for C2 (amended): a sanitized absolute href parses absolute. -/
theorem c2_witness :
    sanitizeURL "https://a.test/x" ≠ "" ∧
      isAbs { scheme := "https", host := "a.test", path := "/x", rawQuery := "", fragment := "" } = true :=
  ⟨by decide, c2_sanitize_forces_absolute.2.1 "https://a.test/x" (by decide)
    { scheme := "https", host := "a.test", path := "/x", rawQuery := "", fragment := "" } (by decide)⟩

/-! ### C9 — determinism and idempotence of classification -/

/-- The decision for one raw link record: skip when the trimmed href is
empty, otherwise classify the trimmed href. -/
def itemCandidate (baseURL : String) (pb : GoURL) (csd : Bool)
    (link : LinkRecord) : Option (String × Bool) :=
  if trimSpace link.href = "" then none
  else linkCandidate (trimSpace link.href) baseURL pb csd

lemma processOneLink_eq (baseURL : String) (pb : GoURL) (csd : Bool)
    (sets : List String × List String) (link : LinkRecord) :
    processOneLink baseURL pb csd sets link =
      match itemCandidate baseURL pb csd link with
      | none => sets
      | some (u, false) => (insertSet sets.1 u, sets.2)
      | some (u, true) => (sets.1, insertSet sets.2 u) := by
  unfold processOneLink itemCandidate
  dsimp only
  by_cases h : trimSpace link.href = ""
  · simp [h]
  · rw [if_neg h, if_neg h]
    exact processLink_eq_candidate _ _ _ _ _ _

/-- Membership of `u` in the component of the set pair selected by the
file flag `bb`. -/
def compMem (sets : List String × List String) (u : String) (bb : Bool) : Prop :=
  if bb then u ∈ sets.2 else u ∈ sets.1

lemma processOneLink_compMem_mono {baseURL : String} {pb : GoURL} {csd : Bool}
    {sets : List String × List String} {link : LinkRecord} {u : String} {bb : Bool}
    (h : compMem sets u bb) : compMem (processOneLink baseURL pb csd sets link) u bb := by
  rw [processOneLink_eq]
  cases hc : itemCandidate baseURL pb csd link with
  | none => exact h
  | some p =>
      obtain ⟨v, vb⟩ := p
      cases vb
      · cases bb
        · exact mem_insertSet_of_mem v h
        · exact h
      · cases bb
        · exact h
        · exact mem_insertSet_of_mem v h

lemma processOneLink_compMem_self {baseURL : String} {pb : GoURL} {csd : Bool}
    {sets : List String × List String} {link : LinkRecord} {u : String} {bb : Bool}
    (hc : itemCandidate baseURL pb csd link = some (u, bb)) :
    compMem (processOneLink baseURL pb csd sets link) u bb := by
  rw [processOneLink_eq, hc]
  cases bb
  · exact mem_insertSet_self _ _
  · exact mem_insertSet_self _ _

lemma processOneLink_noop {baseURL : String} {pb : GoURL} {csd : Bool}
    {sets : List String × List String} {link : LinkRecord}
    (h : ∀ u bb, itemCandidate baseURL pb csd link = some (u, bb) → compMem sets u bb) :
    processOneLink baseURL pb csd sets link = sets := by
  rw [processOneLink_eq]
  cases hc : itemCandidate baseURL pb csd link with
  | none => rfl
  | some p =>
      obtain ⟨u, bb⟩ := p
      have hm := h u bb hc
      cases bb
      · show (insertSet sets.1 u, sets.2) = sets
        rw [insertSet_of_mem hm]
      · show (sets.1, insertSet sets.2 u) = sets
        rw [insertSet_of_mem hm]

lemma processLinks_compMem_mono {baseURL : String} {pb : GoURL} {csd : Bool}
    {u : String} {bb : Bool} (links : List LinkRecord)
    {sets : List String × List String} (h : compMem sets u bb) :
    compMem (processLinks links baseURL pb csd sets) u bb := by
  induction links generalizing sets with
  | nil => exact h
  | cons l t ih => exact ih (processOneLink_compMem_mono h)

lemma processLinks_candidate_mem {baseURL : String} {pb : GoURL} {csd : Bool}
    {links : List LinkRecord} {link : LinkRecord} {u : String} {bb : Bool}
    (hm : link ∈ links)
    (hc : itemCandidate baseURL pb csd link = some (u, bb))
    (sets : List String × List String) :
    compMem (processLinks links baseURL pb csd sets) u bb := by
  induction links generalizing sets with
  | nil => cases hm
  | cons l t ih =>
      rcases List.mem_cons.1 hm with rfl | hm2
      · exact processLinks_compMem_mono t (processOneLink_compMem_self hc)
      · exact ih hm2 _

lemma processLinks_noop {baseURL : String} {pb : GoURL} {csd : Bool}
    {links : List LinkRecord} {sets : List String × List String}
    (h : ∀ link ∈ links, ∀ u bb,
      itemCandidate baseURL pb csd link = some (u, bb) → compMem sets u bb) :
    processLinks links baseURL pb csd sets = sets := by
  induction links with
  | nil => rfl
  | cons l t ih =>
      have h1 : processOneLink baseURL pb csd sets l = sets :=
        processOneLink_noop (h l (List.mem_cons_self l t))
      have h2 : processLinks (l :: t) baseURL pb csd sets
          = processLinks t baseURL pb csd sets := by
        show processLinks t baseURL pb csd (processOneLink baseURL pb csd sets l) = _
        rw [h1]
      rw [h2]
      exact ih (fun link hm => h link (List.mem_cons_of_mem l hm))

/-- C9: the classifier is a pure function of the link list, base URL,
seed URL and subdomain flag — determinism is immediate in the embedding —
and re-running the per-page classification loop over the same links on
top of the partition it produced leaves that partition unchanged: the
second classification of the same page yields the identical
crawlable/file partition. -/
theorem c9_classification_idempotent :
    ∀ (cr : CrawlResult) (baseURL : String) (pb : GoURL) (csd : Bool),
      processLinks cr.links.internal baseURL pb csd (extractLinks cr baseURL pb csd) =
        extractLinks cr baseURL pb csd := by
  intro cr baseURL pb csd
  apply processLinks_noop
  intro link hm u bb hc
  exact processLinks_candidate_mem hm hc ([], [])

/-! ### C1 — the page budget is never exceeded -/

/-- A fetcher that fails on every URL. -/
def alwaysFailFetcher : Fetcher :=
  ⟨fun _ => Except.error "network unreachable"⟩

lemma one_le_normalize_maxPages (o : SpiderOptions) : 1 ≤ (normalizeOptions o).maxPages := by
  unfold normalizeOptions
  split
  · exact le_refl 1
  · omega

lemma step_totalPages_le {o : SpiderOptions} {pURL : GoURL} {F : Fetcher}
    {s s2 : CrawlState} (h : Step o pURL F s s2)
    (hb : (s.totalPages : Int) ≤ o.maxPages) : (s2.totalPages : Int) ≤ o.maxPages := by
  cases h with
  | admitAccept j rest hq hp hd hv =>
      show ((s.totalPages + 1 : Nat) : Int) ≤ o.maxPages
      push_cast
      omega
  | admitReject j rest hq hrej => exact hb
  | workerFail j msg hj hf => exact hb
  | workerSuccessLeaf j cr hj hf hd => exact hb
  | workerSuccessExpand j cr links files hj hf hd hl hfi => exact hb

lemma reachable_totalPages_le {o : SpiderOptions} {pURL : GoURL} {F : Fetcher}
    {s s2 : CrawlState} (h : Reachable o pURL F s s2)
    (hb : (s.totalPages : Int) ≤ o.maxPages) : (s2.totalPages : Int) ≤ o.maxPages := by
  induction h with
  | refl => exact hb
  | tail hab hbc ih => exact step_totalPages_le hbc ih

/-- C1: over every configuration and every fetcher behaviour, every state
the crawl loop can reach from the seeded initial state keeps
`TotalPages ≤ MaxPages` (with `MaxPages` read after the `≤ 0 → 1`
coercion), the returned result keeps the same bound, and once
`TotalPages` has reached the limit no step admits a job any more: the
counter and the visited set never change again. -/
theorem c1_total_pages_bounded (opts : SpiderOptions) (pURL : GoURL) (F : Fetcher)
    (targetURL : String) (s : CrawlState)
    (hreach : Reachable (normalizeOptions opts) pURL F (initState targetURL) s) :
    ((s.totalPages : Int) ≤ (normalizeOptions opts).maxPages ∧
      ((finalizeResult s).totalPages : Int) ≤ (normalizeOptions opts).maxPages) ∧
    ∀ s2 : CrawlState, Step (normalizeOptions opts) pURL F s s2 →
      (normalizeOptions opts).maxPages ≤ (s.totalPages : Int) →
      s2.totalPages = s.totalPages ∧ s2.visited = s.visited := by
  have h1 : (s.totalPages : Int) ≤ (normalizeOptions opts).maxPages := by
    apply reachable_totalPages_le hreach
    show ((0 : Nat) : Int) ≤ _
    have h2 := one_le_normalize_maxPages opts
    omega
  refine ⟨⟨h1, h1⟩, ?_⟩
  intro s2 hstep hge
  cases hstep with
  | admitAccept j rest hq hp hd hv => exact absurd hge (not_le.2 hp)
  | admitReject j rest hq hrej => exact ⟨rfl, rfl⟩
  | workerFail j msg hj hf => exact ⟨rfl, rfl⟩
  | workerSuccessLeaf j cr hj hf hd => exact ⟨rfl, rfl⟩
  | workerSuccessExpand j cr links files hj hf hd hl hfi => exact ⟨rfl, rfl⟩

/-- Witness for C1, instantiated at the initial state of a concrete
crawl. -/
theorem c1_witness :
    ((((initState "https://a.test/").totalPages : Int) ≤ (normalizeOptions DefaultSpiderOptions).maxPages ∧
      (((finalizeResult (initState "https://a.test/")).totalPages : Int) ≤ (normalizeOptions DefaultSpiderOptions).maxPages)) ∧
    ∀ s2 : CrawlState,
      Step (normalizeOptions DefaultSpiderOptions)
        { scheme := "https", host := "a.test", path := "/", rawQuery := "", fragment := "" }
        alwaysFailFetcher (initState "https://a.test/") s2 →
      (normalizeOptions DefaultSpiderOptions).maxPages ≤ ((initState "https://a.test/").totalPages : Int) →
      s2.totalPages = (initState "https://a.test/").totalPages ∧
        s2.visited = (initState "https://a.test/").visited) :=
  c1_total_pages_bounded DefaultSpiderOptions
    { scheme := "https", host := "a.test", path := "/", rawQuery := "", fragment := "" }
    alwaysFailFetcher "https://a.test/" (initState "https://a.test/")
    Relation.ReflTransGen.refl

/-! ### C3 — each URL is admitted at most once -/

/-- All URLs the crawl has committed to: completed successes, recorded
failures, and workers still in flight. -/
def bookkeepingList (s : CrawlState) : List String :=
  s.crawledURLs ++ s.failedPages.map Prod.fst ++ s.running.map Job.url

/-- Invariant: the committed URLs are pairwise distinct and all marked
visited. -/
def AdmissionInv (s : CrawlState) : Prop :=
  (bookkeepingList s).Nodup ∧ ∀ u ∈ bookkeepingList s, u ∈ s.visited

lemma append_move_perm (c f e : List String) (x : String) :
    ((c ++ [x]) ++ f ++ e).Perm (c ++ f ++ (x :: e)) := by
  have h1 : (c ++ [x]) ++ f ++ e = c ++ ([x] ++ (f ++ e)) := by
    simp [List.append_assoc]
  have h2 : c ++ f ++ (x :: e) = c ++ (f ++ (x :: e)) := by
    simp [List.append_assoc]
  rw [h1, h2]
  exact List.Perm.append_left c (@List.perm_middle String x f e).symm

lemma step_admissionInv {o : SpiderOptions} {pURL : GoURL} {F : Fetcher}
    {s s2 : CrawlState} (h : Step o pURL F s s2) (hi : AdmissionInv s) :
    AdmissionInv s2 := by
  obtain ⟨hnd, hvis⟩ := hi
  cases h with
  | admitReject j rest hq hrej => exact ⟨hnd, hvis⟩
  | admitAccept j rest hq hp hd hv =>
      have hperm : (bookkeepingList
          { s with
              queue := rest
              visited := j.url :: s.visited
              totalPages := s.totalPages + 1
              running := j :: s.running }).Perm (j.url :: bookkeepingList s) := by
        show ((s.crawledURLs ++ s.failedPages.map Prod.fst) ++
            (j.url :: s.running.map Job.url)).Perm _
        exact List.perm_middle
      constructor
      · apply hperm.symm.nodup
        rw [List.nodup_cons]
        refine ⟨fun hmem => hv (hvis _ hmem), hnd⟩
      · intro u hu
        rcases List.mem_cons.1 (hperm.mem_iff.1 hu) with rfl | hu2
        · exact List.mem_cons_self _ _
        · exact List.mem_cons_of_mem _ (hvis u hu2)
  | workerFail j msg hj hf =>
      have hmap : (s.running.map Job.url).Perm
          (j.url :: (s.running.erase j).map Job.url) :=
        (List.perm_cons_erase hj).map Job.url
      have hperm : (bookkeepingList s).Perm (bookkeepingList
          { s with
              running := s.running.erase j
              failedPages := s.failedPages ++ [(j.url, msg)] }) := by
        show (s.crawledURLs ++ s.failedPages.map Prod.fst ++ s.running.map Job.url).Perm
          (s.crawledURLs ++ (s.failedPages ++ [(j.url, msg)]).map Prod.fst ++
            (s.running.erase j).map Job.url)
        have h1 : s.crawledURLs ++ (s.failedPages ++ [(j.url, msg)]).map Prod.fst ++
            (s.running.erase j).map Job.url
            = s.crawledURLs ++ s.failedPages.map Prod.fst ++
              (j.url :: (s.running.erase j).map Job.url) := by
          simp [List.append_assoc]
        rw [h1]
        exact List.Perm.append_left _ hmap
      refine ⟨hperm.nodup hnd, fun u hu => hvis u (hperm.symm.mem_iff.1 hu)⟩
  | workerSuccessLeaf j cr hj hf hd =>
      have hmap : (s.running.map Job.url).Perm
          (j.url :: (s.running.erase j).map Job.url) :=
        (List.perm_cons_erase hj).map Job.url
      have hperm : (bookkeepingList s).Perm (bookkeepingList
          { s with
              running := s.running.erase j
              crawledURLs := s.crawledURLs ++ [j.url]
              successfulPages := s.successfulPages + 1 }) := by
        show (s.crawledURLs ++ s.failedPages.map Prod.fst ++ s.running.map Job.url).Perm
          ((s.crawledURLs ++ [j.url]) ++ s.failedPages.map Prod.fst ++
            (s.running.erase j).map Job.url)
        refine List.Perm.trans ?_ (append_move_perm _ _ _ _).symm
        exact List.Perm.append_left _ hmap
      refine ⟨hperm.nodup hnd, fun u hu => hvis u (hperm.symm.mem_iff.1 hu)⟩
  | workerSuccessExpand j cr links files hj hf hd hl hfi =>
      have hmap : (s.running.map Job.url).Perm
          (j.url :: (s.running.erase j).map Job.url) :=
        (List.perm_cons_erase hj).map Job.url
      have hperm : (bookkeepingList s).Perm (bookkeepingList
          { s with
              running := s.running.erase j
              crawledURLs := s.crawledURLs ++ [j.url]
              successfulPages := s.successfulPages + 1
              detectedFileUrls := s.detectedFileUrls ++ files
              queue := enqueueAll o.maxPages s.queue
                (links.map (fun l => { url := l, depth := j.depth + 1 })) }) := by
        show (s.crawledURLs ++ s.failedPages.map Prod.fst ++ s.running.map Job.url).Perm
          ((s.crawledURLs ++ [j.url]) ++ s.failedPages.map Prod.fst ++
            (s.running.erase j).map Job.url)
        refine List.Perm.trans ?_ (append_move_perm _ _ _ _).symm
        exact List.Perm.append_left _ hmap
      refine ⟨hperm.nodup hnd, fun u hu => hvis u (hperm.symm.mem_iff.1 hu)⟩

lemma reachable_admissionInv {o : SpiderOptions} {pURL : GoURL} {F : Fetcher}
    {s s2 : CrawlState} (h : Reachable o pURL F s s2) (hi : AdmissionInv s) :
    AdmissionInv s2 := by
  induction h with
  | refl => exact hi
  | tail hab hbc ih => exact step_admissionInv hbc ih

/-- C3: in every reachable crawl state the committed URLs — crawled,
failed and in-flight together — are pairwise distinct (each URL is
admitted, and its visited-marking and page-count increment taken, at most
once, the admission gate being a single atomic step of the relation), so
the returned `CrawledURLs` holds no duplicates and shares no URL with the
keys of `FailedPages`. -/
theorem c3_admitted_once (opts : SpiderOptions) (pURL : GoURL) (F : Fetcher)
    (targetURL : String) (s : CrawlState)
    (hreach : Reachable (normalizeOptions opts) pURL F (initState targetURL) s) :
    (s.crawledURLs ++ s.failedPages.map Prod.fst ++ s.running.map Job.url).Nodup ∧
    (finalizeResult s).crawledURLs.Nodup ∧
    ∀ u ∈ (finalizeResult s).crawledURLs,
      ∀ p ∈ (finalizeResult s).failedPages, u ≠ p.1 := by
  have hinv : AdmissionInv s := by
    apply reachable_admissionInv hreach
    constructor
    · show (([] : List String) ++ [] ++ []).Nodup
      simp
    · intro u hu
      simp [bookkeepingList, initState] at hu
  obtain ⟨hnd, _⟩ := hinv
  refine ⟨hnd, ?_, ?_⟩
  · exact ((List.nodup_append.1 (List.nodup_append.1 hnd).1).1)
  · intro u hu p hp heq
    have h1 := (List.nodup_append.1 (List.nodup_append.1 hnd).1).2.2
    exact h1 hu (heq ▸ List.mem_map_of_mem Prod.fst hp)

/-- Witness for C3 at the initial state of a concrete crawl. -/
theorem c3_witness :
    ((initState "https://a.test/").crawledURLs ++
      (initState "https://a.test/").failedPages.map Prod.fst ++
      (initState "https://a.test/").running.map Job.url).Nodup ∧
    (finalizeResult (initState "https://a.test/")).crawledURLs.Nodup ∧
    ∀ u ∈ (finalizeResult (initState "https://a.test/")).crawledURLs,
      ∀ p ∈ (finalizeResult (initState "https://a.test/")).failedPages, u ≠ p.1 :=
  c3_admitted_once DefaultSpiderOptions
    { scheme := "https", host := "a.test", path := "/", rawQuery := "", fragment := "" }
    alwaysFailFetcher "https://a.test/" (initState "https://a.test/")
    Relation.ReflTransGen.refl

/-! ### C4 — the depth limit -/

lemma mem_enqueueJob {maxPages : Int} {q : List Job} {j k : Job}
    (h : k ∈ enqueueJob maxPages q j) : k ∈ q ∨ k = j := by
  unfold enqueueJob at h
  split at h
  · rcases List.mem_append.1 h with h1 | h2
    · exact Or.inl h1
    · exact Or.inr (List.mem_singleton.1 h2)
  · exact Or.inl h

lemma mem_enqueueAll {maxPages : Int} {q js : List Job} {k : Job}
    (h : k ∈ enqueueAll maxPages q js) : k ∈ q ∨ k ∈ js := by
  induction js generalizing q with
  | nil => exact Or.inl h
  | cons a t ih =>
      have h2 : k ∈ enqueueAll maxPages (enqueueJob maxPages q a) t := h
      rcases ih h2 with hq | ht
      · rcases mem_enqueueJob hq with h3 | rfl
        · exact Or.inl h3
        · exact Or.inr (List.mem_cons_self _ _)
      · exact Or.inr (List.mem_cons_of_mem a ht)

/-- Invariant: every pending and every in-flight job respects the depth
limit. -/
def DepthInv (maxDepth : Int) (s : CrawlState) : Prop :=
  (∀ j ∈ s.queue, (j.depth : Int) ≤ maxDepth) ∧
    ∀ j ∈ s.running, (j.depth : Int) ≤ maxDepth

lemma step_depthInv {o : SpiderOptions} {pURL : GoURL} {F : Fetcher}
    {s s2 : CrawlState} (h : Step o pURL F s s2) (hi : DepthInv o.maxDepth s) :
    DepthInv o.maxDepth s2 := by
  obtain ⟨hq, hr⟩ := hi
  cases h with
  | admitReject j rest hq2 hrej =>
      exact ⟨fun k hk => hq k (by rw [hq2]; exact List.mem_cons_of_mem j hk), hr⟩
  | admitAccept j rest hq2 hp hd hv =>
      refine ⟨fun k hk => hq k (by rw [hq2]; exact List.mem_cons_of_mem j hk), ?_⟩
      intro k hk
      rcases List.mem_cons.1 hk with rfl | hk2
      · exact hd
      · exact hr k hk2
  | workerFail j msg hj hf =>
      exact ⟨hq, fun k hk => hr k (List.mem_of_mem_erase hk)⟩
  | workerSuccessLeaf j cr hj hf hd =>
      exact ⟨hq, fun k hk => hr k (List.mem_of_mem_erase hk)⟩
  | workerSuccessExpand j cr links files hj hf hd hl hfi =>
      refine ⟨?_, fun k hk => hr k (List.mem_of_mem_erase hk)⟩
      intro k hk
      rcases mem_enqueueAll hk with h1 | h2
      · exact hq k h1
      · rcases List.mem_map.1 h2 with ⟨l, hl2, rfl⟩
        show ((j.depth + 1 : Nat) : Int) ≤ o.maxDepth
        push_cast
        omega

lemma reachable_depthInv {o : SpiderOptions} {pURL : GoURL} {F : Fetcher}
    {s s2 : CrawlState} (h : Reachable o pURL F s s2) (hi : DepthInv o.maxDepth s) :
    DepthInv o.maxDepth s2 := by
  induction h with
  | refl => exact hi
  | tail hab hbc ih => exact step_depthInv hbc ih

/-- C4: in every reachable state (of a crawl whose depth limit is not
negative) every pending and every in-flight job sits at depth at most
`MaxDepth` — a job deeper than that is never admitted — and one further
step can only add crawled or failed entries stemming from an in-flight
job within the limit, can only add file URLs discovered by a worker
strictly below the limit, and can only enqueue children of a worker
strictly below the limit at its depth plus one: a worker at depth
`MaxDepth` never has its links extracted or enqueued. -/
theorem c4_depth_limit (opts : SpiderOptions) (pURL : GoURL) (F : Fetcher)
    (targetURL : String) (s : CrawlState)
    (h0 : 0 ≤ (normalizeOptions opts).maxDepth)
    (hreach : Reachable (normalizeOptions opts) pURL F (initState targetURL) s) :
    ((∀ j ∈ s.queue, (j.depth : Int) ≤ (normalizeOptions opts).maxDepth) ∧
      ∀ j ∈ s.running, (j.depth : Int) ≤ (normalizeOptions opts).maxDepth) ∧
    ∀ s2 : CrawlState, Step (normalizeOptions opts) pURL F s s2 →
      (∀ u ∈ s2.crawledURLs, u ∈ s.crawledURLs ∨
        ∃ j, j ∈ s.running ∧ u = j.url ∧
          (j.depth : Int) ≤ (normalizeOptions opts).maxDepth) ∧
      (∀ p ∈ s2.failedPages, p ∈ s.failedPages ∨
        ∃ j, j ∈ s.running ∧ p.1 = j.url ∧
          (j.depth : Int) ≤ (normalizeOptions opts).maxDepth) ∧
      (∀ u ∈ s2.detectedFileUrls, u ∈ s.detectedFileUrls ∨
        ∃ j, j ∈ s.running ∧ (j.depth : Int) < (normalizeOptions opts).maxDepth) ∧
      (∀ k ∈ s2.queue, k ∈ s.queue ∨
        ∃ j, j ∈ s.running ∧ (j.depth : Int) < (normalizeOptions opts).maxDepth ∧
          k.depth = j.depth + 1) := by
  have hinv : DepthInv (normalizeOptions opts).maxDepth s := by
    apply reachable_depthInv hreach
    constructor
    · intro j hj
      rcases List.mem_singleton.1 hj with rfl
      simpa using h0
    · intro j hj
      cases hj
  obtain ⟨hq, hr⟩ := hinv
  refine ⟨⟨hq, hr⟩, ?_⟩
  intro s2 hstep
  cases hstep with
  | admitReject j rest hq2 hrej =>
      refine ⟨fun u hu => Or.inl hu, fun p hp => Or.inl hp, fun u hu => Or.inl hu, ?_⟩
      intro k hk
      exact Or.inl (by rw [hq2]; exact List.mem_cons_of_mem j hk)
  | admitAccept j rest hq2 hp hd hv =>
      refine ⟨fun u hu => Or.inl hu, fun p hp => Or.inl hp, fun u hu => Or.inl hu, ?_⟩
      intro k hk
      exact Or.inl (by rw [hq2]; exact List.mem_cons_of_mem j hk)
  | workerFail j msg hj hf =>
      refine ⟨fun u hu => Or.inl hu, ?_, fun u hu => Or.inl hu, fun k hk => Or.inl hk⟩
      intro p hp
      rcases List.mem_append.1 hp with h1 | h2
      · exact Or.inl h1
      · rcases List.mem_singleton.1 h2 with rfl
        exact Or.inr ⟨j, hj, rfl, hr j hj⟩
  | workerSuccessLeaf j cr hj hf hd =>
      refine ⟨?_, fun p hp => Or.inl hp, fun u hu => Or.inl hu, fun k hk => Or.inl hk⟩
      intro u hu
      rcases List.mem_append.1 hu with h1 | h2
      · exact Or.inl h1
      · rcases List.mem_singleton.1 h2 with rfl
        exact Or.inr ⟨j, hj, rfl, hr j hj⟩
  | workerSuccessExpand j cr links files hj hf hd hl hfi =>
      refine ⟨?_, fun p hp => Or.inl hp, ?_, ?_⟩
      · intro u hu
        rcases List.mem_append.1 hu with h1 | h2
        · exact Or.inl h1
        · rcases List.mem_singleton.1 h2 with rfl
          exact Or.inr ⟨j, hj, rfl, hr j hj⟩
      · intro u hu
        rcases List.mem_append.1 hu with h1 | h2
        · exact Or.inl h1
        · exact Or.inr ⟨j, hj, hd⟩
      · intro k hk
        rcases mem_enqueueAll hk with h1 | h2
        · exact Or.inl h1
        · rcases List.mem_map.1 h2 with ⟨l, hl2, rfl⟩
          exact Or.inr ⟨j, hj, hd, rfl⟩

/-- Witness for C4 at the initial state of a concrete crawl. -/
theorem c4_witness :
    ((∀ j ∈ (initState "https://a.test/").queue,
        (j.depth : Int) ≤ (normalizeOptions DefaultSpiderOptions).maxDepth) ∧
      ∀ j ∈ (initState "https://a.test/").running,
        (j.depth : Int) ≤ (normalizeOptions DefaultSpiderOptions).maxDepth) ∧
    ∀ s2 : CrawlState,
      Step (normalizeOptions DefaultSpiderOptions)
        { scheme := "https", host := "a.test", path := "/", rawQuery := "", fragment := "" }
        alwaysFailFetcher (initState "https://a.test/") s2 →
      (∀ u ∈ s2.crawledURLs, u ∈ (initState "https://a.test/").crawledURLs ∨
        ∃ j, j ∈ (initState "https://a.test/").running ∧ u = j.url ∧
          (j.depth : Int) ≤ (normalizeOptions DefaultSpiderOptions).maxDepth) ∧
      (∀ p ∈ s2.failedPages, p ∈ (initState "https://a.test/").failedPages ∨
        ∃ j, j ∈ (initState "https://a.test/").running ∧ p.1 = j.url ∧
          (j.depth : Int) ≤ (normalizeOptions DefaultSpiderOptions).maxDepth) ∧
      (∀ u ∈ s2.detectedFileUrls, u ∈ (initState "https://a.test/").detectedFileUrls ∨
        ∃ j, j ∈ (initState "https://a.test/").running ∧
          (j.depth : Int) < (normalizeOptions DefaultSpiderOptions).maxDepth) ∧
      (∀ k ∈ s2.queue, k ∈ (initState "https://a.test/").queue ∨
        ∃ j, j ∈ (initState "https://a.test/").running ∧
          (j.depth : Int) < (normalizeOptions DefaultSpiderOptions).maxDepth ∧
          k.depth = j.depth + 1) :=
  c4_depth_limit DefaultSpiderOptions
    { scheme := "https", host := "a.test", path := "/", rawQuery := "", fragment := "" }
    alwaysFailFetcher "https://a.test/" (initState "https://a.test/")
    (by decide) Relation.ReflTransGen.refl

/-! ### C6 — error only on seed parse; failing fetcher scenario -/

/-- Invariant of a crawl whose fetcher never succeeds: the session is in
one of three configurations — pristine, seed in flight, or seed failed —
and never records a success, a crawled URL or a file. -/
def failCrawlInv (seed : String) (F : Fetcher) (s : CrawlState) : Prop :=
  s.successfulPages = 0 ∧ s.crawledURLs = [] ∧ s.detectedFileUrls = [] ∧
    ((s.queue = [{ url := seed, depth := 0 }] ∧ s.running = [] ∧ s.visited = [] ∧
        s.totalPages = 0 ∧ s.failedPages = []) ∨
     (s.queue = [] ∧ s.running = [{ url := seed, depth := 0 }] ∧ s.visited = [seed] ∧
        s.totalPages = 1 ∧ s.failedPages = []) ∨
     (s.queue = [] ∧ s.running = [] ∧ s.visited = [seed] ∧ s.totalPages = 1 ∧
        ∃ msg, s.failedPages = [(seed, msg)] ∧ F.fetch seed = Except.error msg))

lemma step_failCrawlInv {o : SpiderOptions} {pURL : GoURL} {F : Fetcher} {seed : String}
    {s s2 : CrawlState} (hmp : 1 ≤ o.maxPages) (hmd : 0 ≤ o.maxDepth)
    (hF : ∀ u cr, F.fetch u ≠ Except.ok cr)
    (h : Step o pURL F s s2) (hi : failCrawlInv seed F s) : failCrawlInv seed F s2 := by
  obtain ⟨hsucc, hcrawl, hfiles, hcases⟩ := hi
  cases h with
  | admitReject j rest hq hrej =>
      rcases hcases with ⟨h1, h2, h3, h4, h5⟩ | ⟨h1, h2, h3, h4, h5⟩ | ⟨h1, h2, h3, h4, h5⟩
      · rw [h1] at hq
        injection hq with hj hrest
        subst hj
        subst hrest
        exfalso
        rcases hrej with hx | hx | hx
        · rw [h4] at hx
          have hx2 : ((0 : Nat) : Int) ≥ o.maxPages := hx
          omega
        · have hx2 : ((0 : Nat) : Int) > o.maxDepth := hx
          omega
        · rw [h3] at hx
          cases hx
      · rw [h1] at hq
        exact List.noConfusion hq
      · rw [h1] at hq
        exact List.noConfusion hq
  | admitAccept j rest hq hp hd hv =>
      rcases hcases with ⟨h1, h2, h3, h4, h5⟩ | ⟨h1, h2, h3, h4, h5⟩ | ⟨h1, h2, h3, h4, h5⟩
      · rw [h1] at hq
        injection hq with hj hrest
        subst hj
        subst hrest
        refine ⟨hsucc, hcrawl, hfiles, Or.inr (Or.inl ⟨rfl, ?_, ?_, ?_, h5⟩)⟩
        · show { url := seed, depth := 0 } :: s.running = [{ url := seed, depth := 0 }]
          rw [h2]
        · show seed :: s.visited = [seed]
          rw [h3]
        · show s.totalPages + 1 = 1
          rw [h4]
      · rw [h1] at hq
        exact List.noConfusion hq
      · rw [h1] at hq
        exact List.noConfusion hq
  | workerFail j msg hj hf =>
      rcases hcases with ⟨h1, h2, h3, h4, h5⟩ | ⟨h1, h2, h3, h4, h5⟩ | ⟨h1, h2, h3, h4, h5⟩
      · rw [h2] at hj
        cases hj
      · rw [h2] at hj
        rcases List.mem_singleton.1 hj with rfl
        refine ⟨hsucc, hcrawl, hfiles, Or.inr (Or.inr ⟨h1, ?_, h3, h4, msg, ?_, hf⟩)⟩
        · show s.running.erase { url := seed, depth := 0 } = []
          rw [h2, List.erase_cons_head]
        · show s.failedPages ++ [(seed, msg)] = [(seed, msg)]
          rw [h5]
          rfl
      · rw [h2] at hj
        cases hj
  | workerSuccessLeaf j cr hj hf hd => exact absurd hf (hF j.url cr)
  | workerSuccessExpand j cr links files hj hf hd hl hfi => exact absurd hf (hF j.url cr)

lemma reachable_failCrawlInv {o : SpiderOptions} {pURL : GoURL} {F : Fetcher} {seed : String}
    {s s2 : CrawlState} (hmp : 1 ≤ o.maxPages) (hmd : 0 ≤ o.maxDepth)
    (hF : ∀ u cr, F.fetch u ≠ Except.ok cr)
    (h : Reachable o pURL F s s2) (hi : failCrawlInv seed F s) : failCrawlInv seed F s2 := by
  induction h with
  | refl => exact hi
  | tail hab hbc ih => exact step_failCrawlInv hmp hmd hF hbc ih

/-- C6: `SpiderWebsite` returns an error exactly when the seed URL fails
to parse, in which case the crawl never starts (on success the effective
options and the pristine initial state are produced); and under a fetcher
that always errors, any drained crawl state — empty frontier, no worker
left — yields a result with zero successful pages and exactly one failed
entry, the seed, carrying the fetcher's error. -/
theorem c6_error_handling :
    (∀ (targetURL : String) (options : Option SpiderOptions),
        (∃ msg, spiderWebsiteSetup targetURL options = Except.error msg) ↔
          parseURL targetURL = none) ∧
    (∀ (targetURL : String) (options : Option SpiderOptions) (parsed : GoURL),
        parseURL targetURL = some parsed →
        spiderWebsiteSetup targetURL options =
          Except.ok (normalizeOptions (options.getD DefaultSpiderOptions), parsed,
            initState targetURL)) ∧
    (∀ (opts : SpiderOptions) (pURL : GoURL) (F : Fetcher) (seed : String) (s : CrawlState),
        0 ≤ (normalizeOptions opts).maxDepth →
        (∀ u cr, F.fetch u ≠ Except.ok cr) →
        Reachable (normalizeOptions opts) pURL F (initState seed) s →
        s.queue = [] → s.running = [] →
        (finalizeResult s).successfulPages = 0 ∧
          ∃ msg, (finalizeResult s).failedPages = [(seed, msg)] ∧
            F.fetch seed = Except.error msg) := by
  refine ⟨?_, ?_, ?_⟩
  · intro targetURL options
    unfold spiderWebsiteSetup
    cases hp : parseURL targetURL with
    | none => exact ⟨fun _ => rfl, fun _ => ⟨"failed to parse target URL", rfl⟩⟩
    | some parsed =>
        constructor
        · rintro ⟨msg, hmsg⟩
          exact Except.noConfusion hmsg
        · intro h
          exact Option.noConfusion h
  · intro targetURL options parsed hp
    unfold spiderWebsiteSetup
    rw [hp]
  · intro opts pURL F seed s hmd hF hreach hqe hre
    have hinv : failCrawlInv seed F s := by
      apply reachable_failCrawlInv (one_le_normalize_maxPages opts) hmd hF hreach
      exact ⟨rfl, rfl, rfl, Or.inl ⟨rfl, rfl, rfl, rfl, rfl⟩⟩
    obtain ⟨hsucc, hcrawl, hfiles, hcases⟩ := hinv
    rcases hcases with ⟨h1, h2, h3, h4, h5⟩ | ⟨h1, h2, h3, h4, h5⟩ | ⟨h1, h2, h3, h4, h5⟩
    · rw [hqe] at h1
      cases h1
    · rw [hre] at h2
      cases h2
    · exact ⟨hsucc, h5⟩

/-- The crawl state after the seed of a concrete always-failing crawl has
been admitted. -/
def failState1 : CrawlState :=
  { queue := [], running := [{ url := "https://a.test/", depth := 0 }],
    visited := ["https://a.test/"], totalPages := 1, crawledURLs := [],
    successfulPages := 0, failedPages := [], detectedFileUrls := [] }

/-- The drained crawl state of that crawl: the seed's worker failed. -/
def failState2 : CrawlState :=
  { queue := [], running := [], visited := ["https://a.test/"], totalPages := 1,
    crawledURLs := [], successfulPages := 0,
    failedPages := [("https://a.test/", "network unreachable")],
    detectedFileUrls := [] }

lemma failCrawl_trace :
    Reachable (normalizeOptions DefaultSpiderOptions)
      { scheme := "https", host := "a.test", path := "/", rawQuery := "", fragment := "" }
      alwaysFailFetcher (initState "https://a.test/") failState2 := by
  have h1 : Step (normalizeOptions DefaultSpiderOptions)
      { scheme := "https", host := "a.test", path := "/", rawQuery := "", fragment := "" }
      alwaysFailFetcher (initState "https://a.test/") failState1 :=
    Step.admitAccept (initState "https://a.test/") { url := "https://a.test/", depth := 0 } []
      rfl (by decide) (by decide) (by decide)
  have h2 : Step (normalizeOptions DefaultSpiderOptions)
      { scheme := "https", host := "a.test", path := "/", rawQuery := "", fragment := "" }
      alwaysFailFetcher failState1 failState2 :=
    Step.workerFail failState1 { url := "https://a.test/", depth := 0 } "network unreachable"
      (by decide) rfl
  exact Relation.ReflTransGen.head h1 (Relation.ReflTransGen.single h2)

/-- Witness for C6: the always-failing crawl above drains into a result
with no success and exactly the seed in `FailedPages`. -/
theorem c6_witness :
    (finalizeResult failState2).successfulPages = 0 ∧
      ∃ msg, (finalizeResult failState2).failedPages = [("https://a.test/", msg)] ∧
        alwaysFailFetcher.fetch "https://a.test/" = Except.error msg :=
  c6_error_handling.2.2 DefaultSpiderOptions
    { scheme := "https", host := "a.test", path := "/", rawQuery := "", fragment := "" }
    alwaysFailFetcher "https://a.test/" failState2 (by decide)
    (fun u cr h => Except.noConfusion h) failCrawl_trace rfl rfl

/-! ### C5 — finalization and file-list deduplication -/

def c5opts : SpiderOptions :=
  { maxPages := 10, maxDepth := 2, crawlSubDomain := false, timeout := 0, concurrency := 1, delayBetween := 0 }

def c5base : GoURL :=
  { scheme := "https", host := "a.test", path := "/", rawQuery := "", fragment := "" }

/-- The seed page of a deterministic two-page site: it links to the page
`p2` and to the file `doc.pdf`. -/
def c5seedPage : CrawlResult :=
  { content := "", links := { internal := [{ href := "https://a.test/p2", text := "" }, { href := "https://a.test/doc.pdf", text := "" }], external := [] } }

/-- The second page: it links to the same `doc.pdf` again. -/
def c5secondPage : CrawlResult :=
  { content := "", links := { internal := [{ href := "https://a.test/doc.pdf", text := "" }], external := [] } }

def c5Fetcher : Fetcher :=
  ⟨fun u =>
    if u = "https://a.test/" then Except.ok c5seedPage
    else if u = "https://a.test/p2" then Except.ok c5secondPage
    else Except.error "404"⟩

def c5state1 : CrawlState :=
  { queue := [], running := [{ url := "https://a.test/", depth := 0 }],
    visited := ["https://a.test/"], totalPages := 1, crawledURLs := [],
    successfulPages := 0, failedPages := [], detectedFileUrls := [] }

def c5state2 : CrawlState :=
  { queue := [{ url := "https://a.test/p2", depth := 1 }], running := [],
    visited := ["https://a.test/"], totalPages := 1,
    crawledURLs := ["https://a.test/"], successfulPages := 1, failedPages := [],
    detectedFileUrls := ["https://a.test/doc.pdf"] }

def c5state3 : CrawlState :=
  { queue := [], running := [{ url := "https://a.test/p2", depth := 1 }],
    visited := ["https://a.test/p2", "https://a.test/"], totalPages := 2,
    crawledURLs := ["https://a.test/"], successfulPages := 1, failedPages := [],
    detectedFileUrls := ["https://a.test/doc.pdf"] }

def c5final : CrawlState :=
  { queue := [], running := [],
    visited := ["https://a.test/p2", "https://a.test/"], totalPages := 2,
    crawledURLs := ["https://a.test/", "https://a.test/p2"], successfulPages := 2,
    failedPages := [],
    detectedFileUrls := ["https://a.test/doc.pdf", "https://a.test/doc.pdf"] }

/-- C5 counterexample: a complete drained crawl of the two-page site
above — both pages succeed and each contributes the same file URL — ends
with `DetectedFileUrls` holding that URL twice: the finalized result is
not duplicate-free, because the deduplicated `finalFileList` is only
logged, never written back into the result. -/
theorem c5_finalize_counterexample :
    Reachable c5opts c5base c5Fetcher (initState "https://a.test/") c5final ∧
    c5final.queue = [] ∧ c5final.running = [] ∧
    (finalizeResult c5final).detectedFileUrls =
      ["https://a.test/doc.pdf", "https://a.test/doc.pdf"] ∧
    ¬ (finalizeResult c5final).detectedFileUrls.Nodup := by
  refine ⟨?_, rfl, rfl, rfl, by decide⟩
  have h1 : Step c5opts c5base c5Fetcher (initState "https://a.test/") c5state1 :=
    Step.admitAccept (initState "https://a.test/") { url := "https://a.test/", depth := 0 } []
      rfl (by decide) (by decide) (by decide)
  have h2 : Step c5opts c5base c5Fetcher c5state1 c5state2 :=
    Step.workerSuccessExpand c5state1 { url := "https://a.test/", depth := 0 } c5seedPage
      ["https://a.test/p2"] ["https://a.test/doc.pdf"]
      (by decide) rfl (by decide) (by decide) (by decide)
  have h3 : Step c5opts c5base c5Fetcher c5state2 c5state3 :=
    Step.admitAccept c5state2 { url := "https://a.test/p2", depth := 1 } []
      rfl (by decide) (by decide) (by decide)
  have h4 : Step c5opts c5base c5Fetcher c5state3 c5final :=
    Step.workerSuccessExpand c5state3 { url := "https://a.test/p2", depth := 1 } c5secondPage
      [] ["https://a.test/doc.pdf"]
      (by decide) rfl (by decide) (by decide) (by decide)
  exact Relation.ReflTransGen.head h1 (Relation.ReflTransGen.head h2
    (Relation.ReflTransGen.head h3 (Relation.ReflTransGen.single h4)))

lemma foldl_insertSet_nodup (l : List String) (acc : List String) (h : acc.Nodup) :
    (l.foldl insertSet acc).Nodup := by
  induction l generalizing acc with
  | nil => exact h
  | cons a t ih => exact ih (insertSet acc a) (insertSet_nodup h)

lemma mem_foldl_insertSet (l : List String) (acc : List String) (u : String) :
    u ∈ l.foldl insertSet acc ↔ u ∈ acc ∨ u ∈ l := by
  induction l generalizing acc with
  | nil => simp
  | cons a t ih =>
      constructor
      · intro h
        rcases (ih _).1 h with h1 | h2
        · rcases mem_insertSet_iff.1 h1 with h3 | rfl
          · exact Or.inl h3
          · exact Or.inr (List.mem_cons_self _ _)
        · exact Or.inr (List.mem_cons_of_mem _ h2)
      · intro h
        rcases h with h1 | h2
        · exact (ih _).2 (Or.inl (mem_insertSet_of_mem a h1))
        · rcases List.mem_cons.1 h2 with rfl | h3
          · exact (ih _).2 (Or.inl (mem_insertSet_self _ _))
          · exact (ih _).2 (Or.inr h3)

/-- C5 (amended): finalization computes the deduplicated file list only
for the log line — `finalizeLoggedFiles` is duplicate-free and has
exactly the accumulated file URLs as members — while the
`DetectedFileUrls` field of the returned result is the accumulated list,
unchanged, so cross-page duplicates survive into the result. -/
theorem c5_finalize_behavior :
    (∀ s : CrawlState, (finalizeResult s).detectedFileUrls = s.detectedFileUrls) ∧
    (∀ s : CrawlState, (finalizeLoggedFiles s).Nodup ∧
      ∀ u, u ∈ finalizeLoggedFiles s ↔ u ∈ s.detectedFileUrls) := by
  refine ⟨fun s => rfl, fun s => ⟨foldl_insertSet_nodup _ _ List.nodup_nil, fun u => ?_⟩⟩
  show u ∈ s.detectedFileUrls.foldl insertSet [] ↔ _
  rw [mem_foldl_insertSet]
  simp

end Webspider
